import Mathlib

/-!
# Verification of the mmvbtrade backtesting core

A shallow embedding of `src/app/strategies/backtest.py` (the `Backtest`
simulation engine and grid-search optimizer), the constructor validation of
`src/app/strategies/moving_average.py`, and the profit-factor metric of
`Backtest.calculate_performance_metrics`.

Modelling conventions:
* Python floats are modelled as exact rationals (`ℚ`); the claims under
  study are about exact arithmetic, control flow and data flow, not about
  rounding.
* A candle dictionary is reduced to the fields the engine reads: `time`
  (abstracted to a natural-number timestamp) and the close price `c`.
* A strategy object is reduced to the interface the engine uses:
  `get_required_candles_count()`, `analyze(candles) -> (signal, metadata)`
  (the metadata component is dropped — the engine ignores it), plus its
  parameter-attribute dictionary (the `setattr`/`getattr` surface used by the
  optimizer), with integer-valued attributes.
* Exceptions and error-dict returns are modelled with `Except String`.
-/

set_option maxRecDepth 8000

namespace MMVB

/-- One candle of the input series: the engine reads `candle['time']` and the
close price `candle['c']`. -/
structure Candle where
  time : Nat
  c : ℚ
deriving DecidableEq

/-- A strategy as seen by the backtest engine: required history length,
the signal function (1 = buy, −1 = sell, 0 = hold; metadata dropped), and the
parameter attributes that `setattr` acts on. -/
structure Strategy where
  attrs : List (String × Int)
  requiredCandles : Nat
  analyze : List Candle → Int

/-- The `Backtest` object: a strategy plus the execution-cost configuration
(`__init__` of `Backtest`). -/
structure Backtest where
  strategy : Strategy
  initial_capital : ℚ
  commission_pct : ℚ
  slippage_pct : ℚ

/-- buy / sell marker of a ledger entry. -/
inductive TradeType where
  | buy
  | sell
deriving DecidableEq

/-- One ledger entry, as appended to `self.trades`.  Buy entries carry no
`profit_loss` / `profit_loss_pct` keys, hence the `Option`. -/
structure Trade where
  type : TradeType
  time : Nat
  price : ℚ
  quantity : ℚ
  value : ℚ
  commission : ℚ
  profit_loss : Option ℚ
  profit_loss_pct : Option ℚ
deriving DecidableEq

/-- One row of the equity curve (`dates` / `equity_values` / `cash_values` /
`position_values` columns of the final DataFrame); `position` is the stored
position *value* (quantity × close). -/
structure EquityPoint where
  date : Nat
  equity : ℚ
  cash : ℚ
  position : ℚ
deriving DecidableEq

/-- The mutable loop state of `Backtest.run`. -/
structure RunState where
  equity : ℚ
  cash : ℚ
  position : ℚ
  position_size : ℚ
  entry_price : ℚ
  entry_time : Option Nat
  trades : List Trade
  curve : List EquityPoint
deriving DecidableEq

/-- State at the top of `Backtest.run` after the reset (lines 62–77). -/
def initState (bt : Backtest) : RunState :=
  { equity := bt.initial_capital
    cash := bt.initial_capital
    position := 0
    position_size := 0
    entry_price := 0
    entry_time := none
    trades := []
    curve := [] }

/-- Python `historical_candles = candles[:i]` (line 82): the history handed to
`strategy.analyze` at loop index `i`. -/
def historyAt (candles : List Candle) (i : Nat) : List Candle :=
  candles.take i

/-- One iteration of the candle loop of `Backtest.run` (lines 80–166):
compute the signal on `candles[:i]`, append the equity-curve row, then
execute a buy (signal 1 while flat) or a sell (signal −1 while long). -/
def stepBar (bt : Backtest) (candles : List Candle) (s : RunState) (i : Nat) : RunState :=
  let current := candles.getD i ⟨0, 0⟩
  let signal := bt.strategy.analyze (historyAt candles i)
  let current_price := current.c
  let position_value := s.position * current_price
  let equity := s.cash + position_value
  let s1 : RunState := { s with
    equity := equity
    curve := s.curve ++ [⟨current.time, equity, s.cash, position_value⟩] }
  if signal = 1 ∧ s1.position = 0 then
    let position_size := s1.cash
    let buy_price := current_price * (1 + bt.slippage_pct)
    let position := (position_size - position_size * bt.commission_pct) / buy_price
    { s1 with
      cash := 0
      position := position
      position_size := position_size
      entry_price := buy_price
      entry_time := some current.time
      trades := s1.trades ++
        [{ type := .buy, time := current.time, price := buy_price, quantity := position,
             value := position_size, commission := position_size * bt.commission_pct,
             profit_loss := none, profit_loss_pct := none }] }
  else if signal = -1 ∧ 0 < s1.position then
    let sell_price := current_price * (1 - bt.slippage_pct)
    let sell_value := s1.position * sell_price
    let commission := sell_value * bt.commission_pct
    let profit_loss := sell_value - s1.position_size
    let profit_loss_pct := (sell_value / s1.position_size - 1) * 100
    { s1 with
      cash := s1.cash + (sell_value - commission)
      position := 0
      position_size := 0
      entry_price := 0
      entry_time := none
      trades := s1.trades ++
        [{ type := .sell, time := current.time, price := sell_price, quantity := s1.position,
             value := sell_value, commission := commission, profit_loss := some profit_loss,
             profit_loss_pct := some profit_loss_pct }] }
  else s1

/-- The index list of the candle loop:
`range(strategy.get_required_candles_count(), len(candles))`. -/
def loopIndices (bt : Backtest) (candles : List Candle) : List Nat :=
  List.range' bt.strategy.requiredCandles (candles.length - bt.strategy.requiredCandles)

/-- The whole candle loop of `Backtest.run`. -/
def runLoop (bt : Backtest) (candles : List Candle) : RunState :=
  (loopIndices bt candles).foldl (stepBar bt candles) (initState bt)

/-- The loop state after the first `k` iterations (used to speak about the
intermediate states of a run). -/
def loopStateAt (bt : Backtest) (candles : List Candle) (k : Nat) : RunState :=
  ((loopIndices bt candles).take k).foldl (stepBar bt candles) (initState bt)

/-- End-of-series liquidation (lines 168–199): if a position is still open,
sell it at the last candle's close (with slippage/commission), timestamping
the trade with the last equity-curve date; only `cash`, `position` and the
ledger change. -/
def closeFinal (bt : Backtest) (candles : List Candle) (s : RunState) : RunState :=
  if 0 < s.position then
    let last_close := (candles.getLast?.map Candle.c).getD 0
    let sell_price := last_close * (1 - bt.slippage_pct)
    let sell_value := s.position * sell_price
    let commission := sell_value * bt.commission_pct
    let profit_loss := sell_value - s.position_size
    let profit_loss_pct := (sell_value / s.position_size - 1) * 100
    let last_date := ((s.curve.getLast?).map EquityPoint.date).getD 0
    { s with
      cash := s.cash + (sell_value - commission)
      position := 0
      trades := s.trades ++
        [{ type := .sell, time := last_date, price := sell_price, quantity := s.position,
             value := sell_value, commission := commission, profit_loss := some profit_loss,
             profit_loss_pct := some profit_loss_pct }] }
  else s

/-- Value of a possibly guarded ratio metric: the `float('inf')` branch is an
explicit constructor. -/
inductive ProfitFactor where
  | finite (val : ℚ)
  | infinity
deriving DecidableEq

/-- Python `sum([t.get('profit_loss', 0) for t in trades if t.get('profit_loss', 0) > 0])`
(line 282). -/
def totalProfit (trades : List Trade) : ℚ :=
  ((trades.filter fun t => decide (0 < t.profit_loss.getD 0)).map
    fun t => t.profit_loss.getD 0).sum

/-- Python `abs(sum([t.get('profit_loss', 0) for t in trades if t.get('profit_loss', 0) < 0]))`
(line 283). -/
def totalLoss (trades : List Trade) : ℚ :=
  |((trades.filter fun t => decide (t.profit_loss.getD 0 < 0)).map
    fun t => t.profit_loss.getD 0).sum|

/-- The profit-factor metric of `calculate_performance_metrics`
(lines 270–284): present only when the ledger is non-empty;
`total_profit / total_loss if total_loss > 0 else float('inf')`. -/
def profit_factor (trades : List Trade) : Option ProfitFactor :=
  if 0 < trades.length then
    some (if 0 < totalLoss trades then .finite (totalProfit trades / totalLoss trades)
          else .infinity)
  else none

/-- The result dictionary of a successful `Backtest.run` (lines 213–222),
restricted to the fields the claims under study read.  Of the metrics
dictionary only `profit_factor` is modelled; the remaining statistics are
real-valued aggregates no claim refers to, and the optimizer model abstracts
the whole metric lookup through an extractor function. -/
structure RunResult where
  final_equity : ℚ
  total_return : ℚ
  trades : List Trade
  trades_count : Nat
  curve : List EquityPoint
  profit_factor : Option ProfitFactor
deriving DecidableEq

/-- Python `Backtest.run` (lines 45–226): guard on the candle count, run the candle
loop, liquidate any open position, package the results.  The
not-enough-candles early return (lines 55–57) is the `error` branch and
carries nothing but the message. -/
def Backtest.run (bt : Backtest) (candles : List Candle) : Except String RunResult :=
  if candles.length < bt.strategy.requiredCandles then
    .error "Not enough candles for backtest"
  else
    let sFinal := closeFinal bt candles (runLoop bt candles)
    .ok
      { final_equity := sFinal.equity
        total_return := (sFinal.equity / bt.initial_capital - 1) * 100
        trades := sFinal.trades
        trades_count := sFinal.trades.length
        curve := sFinal.curve
        profit_factor :=
          if sFinal.curve.length = 0 then none else profit_factor sFinal.trades }

/-! ## The grid-search optimizer (`Backtest.optimize_strategy`, lines 326–424)

The optimizer is parameterised by the strategy constructor `mk` — in Python
`self.strategy.__class__(**params)`, duck-typed over the strategy class — and
by `extract`, the lookup of the target metric in a successful run's result
dictionary (`result['metrics'][target_metric]`, falling back to a top-level
key).  A run that returned the error dictionary has neither, so its metric
value is the Python fallback `0`. -/

/-- Python `itertools.product(*param_values)`: Cartesian product of the candidate
lists, first list varying slowest. -/
def comboProduct : List (List Int) → List (List Int)
  | [] => [[]]
  | vs :: rest => vs.flatMap fun v => (comboProduct rest).map fun c => v :: c

/-- Python `dict(zip(param_names, combination))` for every combination of
`itertools.product` (lines 356–369). -/
def combosOf (param_ranges : List (String × List Int)) : List (List (String × Int)) :=
  (comboProduct (param_ranges.map Prod.snd)).map fun vals =>
    List.zip (param_ranges.map Prod.fst) vals

/-- Python `setattr(obj, k, v)` on an attribute dictionary: overwrite the attribute
if present, create it otherwise. -/
def setAttr (attrs : List (String × Int)) (k : String) (v : Int) : List (String × Int) :=
  if attrs.any fun p => p.1 = k then
    attrs.map fun p => if p.1 = k then (k, v) else p
  else attrs ++ [(k, v)]

/-- The loop `for param, value in best_params.items(): setattr(self.strategy, param, value)`
(lines 417–418). -/
def setAttrs (attrs : List (String × Int)) (updates : List (String × Int)) :
    List (String × Int) :=
  updates.foldl (fun a p => setAttr a p.1 p.2) attrs

/-- One row of the optimizer's `all_results` list (lines 397–403), reduced to
the parameters and the value of the target metric (its sort key). -/
structure OptEntry where
  parameters : List (String × Int)
  metric_value : ℚ
deriving DecidableEq

/-- The dictionary returned by `optimize_strategy`; `best_value` starts at
`-float('inf')`, modelled as `⊥` of `WithBot ℚ`. -/
structure OptResult where
  best_params : List (String × Int)
  best_value : WithBot ℚ
  results : List OptEntry
  error : Option String
deriving DecidableEq

/-- Metric extraction from a run outcome (lines 388–394): a successful run is
read through `extract`; the error dictionary has no metrics and no
target-metric key, so the value falls through to `0`. -/
def metricOf (extract : RunResult → ℚ) (res : Except String RunResult) : ℚ :=
  match res with
  | .ok r => extract r
  | .error _ => 0

/-- Running best / collected summaries of the grid search (lines 351–354). -/
structure GridAcc where
  best_params : List (String × Int)
  best_value : WithBot ℚ
  all_results : List OptEntry
deriving DecidableEq

/-- One iteration of the grid-search loop (lines 368–409): construct the
strategy — an invalid parameter domain raises, which aborts the whole fold —
build a fresh `Backtest` with the template's cost configuration, run it,
extract the metric, append the summary, and update the running best on
strict improvement. -/
def gridStep (mk : List (String × Int) → Except String Strategy) (extract : RunResult → ℚ)
    (bt : Backtest) (candles : List Candle) (acc : GridAcc) (params : List (String × Int)) :
    Except String GridAcc :=
  match mk params with
  | .error e => .error e
  | .ok strat =>
    let bti : Backtest :=
      { strategy := strat, initial_capital := bt.initial_capital,
        commission_pct := bt.commission_pct, slippage_pct := bt.slippage_pct }
    let v := metricOf extract (Backtest.run bti candles)
    let acc1 : GridAcc := { acc with all_results := acc.all_results ++ [⟨params, v⟩] }
    .ok (if acc1.best_value < (v : ℚ) then
          { acc1 with best_value := (v : ℚ), best_params := params }
        else acc1)

/-- The grid-search loop over all combinations. -/
def gridSearch (mk : List (String × Int) → Except String Strategy) (extract : RunResult → ℚ)
    (bt : Backtest) (candles : List Candle) (combos : List (List (String × Int))) :
    Except String GridAcc :=
  combos.foldlM (gridStep mk extract bt candles) ⟨[], ⊥, []⟩

/-- The value the grid search associates to one combination (matching
`gridStep` on a successful construction; the `error` branch is unreachable
whenever every construction succeeds). -/
def comboValue (mk : List (String × Int) → Except String Strategy) (extract : RunResult → ℚ)
    (bt : Backtest) (candles : List Candle) (params : List (String × Int)) : ℚ :=
  match mk params with
  | .ok strat =>
    metricOf extract (Backtest.run
      { strategy := strat, initial_capital := bt.initial_capital,
        commission_pct := bt.commission_pct, slippage_pct := bt.slippage_pct } candles)
  | .error _ => 0

/-- Stable insertion of a summary into a descending-by-metric list. -/
def insertDesc (x : OptEntry) : List OptEntry → List OptEntry
  | [] => [x]
  | y :: ys => if y.metric_value ≤ x.metric_value then x :: y :: ys else y :: insertDesc x ys

/-- Python `all_results.sort(key=..., reverse=True)` (line 412): stable descending
sort by the target-metric value. -/
def sortDesc (l : List OptEntry) : List OptEntry :=
  l.foldr insertDesc []

/-- Python `Backtest.optimize_strategy` (lines 326–424): empty parameter mapping
short-circuits with an error-flavoured result; otherwise grid-search all
combinations (a construction failure propagates), sort the summaries, write
the best parameters onto the template strategy with `setattr`, and return the
best combination together with the top-10 summaries.  The returned `Backtest`
is the engine after its strategy was updated in place. -/
def optimize_strategy (mk : List (String × Int) → Except String Strategy)
    (extract : RunResult → ℚ) (bt : Backtest) (candles : List Candle)
    (param_ranges : List (String × List Int)) : Except String (Backtest × OptResult) :=
  if param_ranges.isEmpty then
    .ok (bt, { best_params := [], best_value := (0 : ℚ), results := [],
               error := some "No parameters specified for optimization" })
  else
    match gridSearch mk extract bt candles (combosOf param_ranges) with
    | .error e => .error e
    | .ok acc =>
      let btFinal : Backtest :=
        { bt with strategy :=
            { bt.strategy with attrs := setAttrs bt.strategy.attrs acc.best_params } }
      .ok (btFinal,
        { best_params := acc.best_params, best_value := acc.best_value,
          results := (sortDesc acc.all_results).take 10, error := none })

/-- Python `MovingAverageStrategy.__init__` (moving_average.py lines 22–49) as a
constructor the optimizer can call: reads the five keyword parameters with
their Python defaults, raises `ValueError("Fast period must be smaller than
slow period")` when `fast_period >= slow_period`, otherwise builds the
strategy with its attributes and `get_required_candles_count() =
slow_period + 30`.  The signal computation (`analyze`) is passed in
abstractly: no claim under study depends on the moving-average signal
itself. -/
def MovingAverageStrategy.init (analyzeImpl : List Candle → Int)
    (params : List (String × Int)) : Except String Strategy :=
  let fast_period := (params.lookup "fast_period").getD 10
  let slow_period := (params.lookup "slow_period").getD 30
  let signal_threshold := (params.lookup "signal_threshold").getD 0
  let overbought_level := (params.lookup "overbought_level").getD 70
  let oversold_level := (params.lookup "oversold_level").getD 30
  if slow_period ≤ fast_period then
    .error "Fast period must be smaller than slow period"
  else
    .ok
      { attrs := [("fast_period", fast_period), ("slow_period", slow_period),
          ("signal_threshold", signal_threshold), ("overbought_level", overbought_level),
          ("oversold_level", oversold_level)]
        requiredCandles := (slow_period + 30).toNat
        analyze := analyzeImpl }

/-! ## Concrete strategies, engines and candle series used to instantiate the
theorems (witnesses and counterexamples).  They exercise the engine exactly
through its public interface: a `Strategy` value and a candle list. -/

/-- A hold-only strategy: signal 0 on every bar. -/
def holdStrategy : Strategy :=
  { attrs := [], requiredCandles := 1, analyze := fun _ => 0 }

/-- A strategy that signals buy on every bar. -/
def alwaysBuyStrategy : Strategy :=
  { attrs := [], requiredCandles := 1, analyze := fun _ => 1 }

/-- Buys at the first evaluated bar, sells at the second, buys again from the
third on. -/
def buySellBuyStrategy : Strategy :=
  { attrs := [], requiredCandles := 1,
    analyze := fun h => if h.length = 1 then 1 else if h.length = 2 then -1 else 1 }

/-- Buys as soon as its history contains a candle closing at 999, otherwise
holds: an observer for which bars are visible in the passed history. -/
def markSeekStrategy : Strategy :=
  { attrs := [], requiredCandles := 1,
    analyze := fun h => if h.any fun cd => cd.c = 999 then 1 else 0 }

/-- Needs no history; buys on an empty history, sells otherwise: drives one
buy-then-sell round trip over a two-candle series. -/
def roundTripStrategy : Strategy :=
  { attrs := [], requiredCandles := 0,
    analyze := fun h => if h.length = 0 then 1 else -1 }

/-- Cost-free engine with capital `c` running the round-trip strategy. -/
def rtBacktest (c : ℚ) : Backtest :=
  { strategy := roundTripStrategy, initial_capital := c,
    commission_pct := 0, slippage_pct := 0 }

/-- Two candles, both closing at `p`. -/
def rtCandles (p : ℚ) : List Candle := [⟨0, p⟩, ⟨1, p⟩]

/-- Cost-free engine, capital 10000, always-buy strategy. -/
def abBacktest : Backtest :=
  { strategy := alwaysBuyStrategy, initial_capital := 10000,
    commission_pct := 0, slippage_pct := 0 }

/-- Two candles closing at 1. -/
def abCandles : List Candle := [⟨0, 1⟩, ⟨1, 1⟩]

/-- Engine with commission 0 but slippage 2 (200%), capital 10000, driving a
buy / sell / buy sequence. -/
def cx7Backtest : Backtest :=
  { strategy := buySellBuyStrategy, initial_capital := 10000,
    commission_pct := 0, slippage_pct := 2 }

/-- Four candles, all closing at 1. -/
def cx7Candles : List Candle := [⟨0, 1⟩, ⟨1, 1⟩, ⟨2, 1⟩, ⟨3, 1⟩]

/-- Hold-only engine around the mark-seeking strategy, no costs. -/
def c2Backtest : Backtest :=
  { strategy := markSeekStrategy, initial_capital := 10000,
    commission_pct := 0, slippage_pct := 0 }

/-- Two candles; the second one closes at the marker price 999. -/
def c2Candles : List Candle := [⟨0, 1⟩, ⟨1, 999⟩]

/-- Hold-only engine used for optimizer instantiations. -/
def holdBacktest : Backtest :=
  { strategy := holdStrategy, initial_capital := 10000,
    commission_pct := 0, slippage_pct := 0 }

/-- Constructor used by optimizer witnesses: always succeeds and stores the
combination as the new strategy's attributes. -/
def mkHold (params : List (String × Int)) : Except String Strategy :=
  .ok { attrs := params, requiredCandles := 1, analyze := fun _ => 0 }

/-- Extractor used by optimizer witnesses: read the final equity. -/
def extractFinalEquity (r : RunResult) : ℚ := r.final_equity

/-- Extractor modelling a target metric absent from the result: value 0. -/
def extractZero (_ : RunResult) : ℚ := 0

/-- Hold-only engine whose template strategy has one attribute `x = 0`. -/
def c10Backtest : Backtest :=
  { strategy := { attrs := [("x", 0)], requiredCandles := 1, analyze := fun _ => 0 },
    initial_capital := 10000, commission_pct := 0, slippage_pct := 0 }

/-- The trades of the always-buy run: one buy, then the forced end-of-series
liquidation at the same price, i.e. a closed trade with `profit_loss = 0`. -/
def c4Trades : List Trade :=
  match Backtest.run abBacktest abCandles with
  | .ok r => r.trades
  | .error _ => []

/-- Engine expected back from the concrete C10 optimization run: the template
strategy's `x` attribute overwritten with the best value 1. -/
def c10ExpectedBacktest : Backtest :=
  { strategy := { attrs := [("x", 1)], requiredCandles := 1, analyze := fun _ => 0 },
    initial_capital := 10000, commission_pct := 0, slippage_pct := 0 }

/-- Optimization result expected from the concrete C10 run. -/
def c10ExpectedResult : OptResult :=
  { best_params := [("x", 1)], best_value := ((0 : ℚ) : WithBot ℚ),
    results := [⟨[("x", 1)], 0⟩, ⟨[("x", 2)], 0⟩], error := none }

/-- A single closing ledger entry with a profit of 5 (C4 witness input). -/
def c4WitnessTrade : Trade :=
  { type := TradeType.sell, time := 0, price := 1, quantity := 1, value := 1,
    commission := 0, profit_loss := some 5, profit_loss_pct := some 5 }

/-! ## Helper lemmas -/

/-- Each loop iteration appends exactly the pre-trade snapshot row to the
equity curve, whatever branch executes afterwards. -/
theorem stepBar_curve (bt : Backtest) (candles : List Candle) (s : RunState) (i : Nat) :
    (stepBar bt candles s i).curve =
      s.curve ++ [⟨(candles.getD i ⟨0, 0⟩).time,
                   s.cash + s.position * (candles.getD i ⟨0, 0⟩).c,
                   s.cash,
                   s.position * (candles.getD i ⟨0, 0⟩).c⟩] := by
  simp only [stepBar]
  split
  · rfl
  · split <;> rfl

/-- The final liquidation never touches the equity curve. -/
theorem closeFinal_curve (bt : Backtest) (candles : List Candle) (s : RunState) :
    (closeFinal bt candles s).curve = s.curve := by
  unfold closeFinal
  split <;> rfl

/-- The final liquidation never touches the stale `equity` accumulator. -/
theorem closeFinal_equity (bt : Backtest) (candles : List Candle) (s : RunState) :
    (closeFinal bt candles s).equity = s.equity := by
  unfold closeFinal
  split <;> rfl

/-- Folding the candle loop over any index list grows the curve by exactly
one row per index. -/
theorem foldl_stepBar_curve_length (bt : Backtest) (candles : List Candle) :
    ∀ (idxs : List Nat) (s : RunState),
      ((idxs.foldl (stepBar bt candles) s).curve).length = s.curve.length + idxs.length := by
  intro idxs
  induction idxs with
  | nil => intro s; simp
  | cons i rest ih =>
    intro s
    rw [List.foldl_cons, ih, stepBar_curve]
    simp
    omega

/-- Inserting with `insertDesc` grows the list by one element. -/
theorem insertDesc_length (x : OptEntry) : ∀ l : List OptEntry,
    (insertDesc x l).length = l.length + 1 := by
  intro l
  induction l with
  | nil => rfl
  | cons y ys ih =>
    unfold insertDesc
    split
    · rfl
    · simp only [List.length_cons, ih]

/-- The descending sort is a permutation in particular in length. -/
theorem sortDesc_length (l : List OptEntry) : (sortDesc l).length = l.length := by
  unfold sortDesc
  induction l with
  | nil => rfl
  | cons y ys ih => rw [List.foldr_cons, insertDesc_length, ih, List.length_cons]

/-- Every index the candle loop visits is a valid index into the series. -/
theorem mem_loopIndices_lt (bt : Backtest) (candles : List Candle) (i : Nat)
    (h : i ∈ loopIndices bt candles) : i < candles.length := by
  unfold loopIndices at h
  rcases List.mem_range'.mp h with ⟨j, hj, rfl⟩
  omega

/-- A list of negative rationals has negative sum when non-empty. -/
theorem sum_neg_of_all_neg : ∀ (l : List ℚ), (∀ x ∈ l, x < 0) → l ≠ [] → l.sum < 0 := by
  intro l
  induction l with
  | nil => intro _ h; exact absurd rfl h
  | cons x xs ih =>
    intro hall _
    rw [List.sum_cons]
    rcases eq_or_ne xs [] with rfl | hne
    · simpa using hall x (by simp)
    · have hx := hall x (by simp)
      have hxs := ih (fun y hy => hall y (by simp [hy])) hne
      linarith

/-- Reading attribute `k` after overwriting every `k`-entry, provided some
entry had key `k`. -/
theorem lookup_map_overwrite_self (k : String) (v : Int) :
    ∀ attrs : List (String × Int), attrs.any (fun p => p.1 = k) →
      (attrs.map fun p => if p.1 = k then (k, v) else p).lookup k = some v := by
  intro attrs
  induction attrs with
  | nil => simp
  | cons a l ih =>
    intro hany
    by_cases hak : a.1 = k
    · rw [List.map_cons, if_pos hak]
      simp [List.lookup_cons]
    · simp only [List.any_cons, Bool.or_eq_true, decide_eq_true_eq] at hany
      rw [List.map_cons, if_neg hak, List.lookup_cons,
        beq_false_of_ne fun h => hak h.symm]
      exact ih (by rcases hany with h | h; exact absurd h hak; simpa using h)

/-- Reading attribute `k' ≠ k` is unaffected by overwriting the `k`-entries. -/
theorem lookup_map_overwrite_ne (k k' : String) (v : Int) (hne : k' ≠ k) :
    ∀ attrs : List (String × Int),
      (attrs.map fun p => if p.1 = k then (k, v) else p).lookup k' = attrs.lookup k' := by
  intro attrs
  induction attrs with
  | nil => simp
  | cons a l ih =>
    by_cases hak : a.1 = k
    · rw [List.map_cons, if_pos hak, List.lookup_cons, List.lookup_cons,
        beq_false_of_ne hne, beq_false_of_ne (by rw [hak]; exact hne)]
      exact ih
    · rw [List.map_cons, if_neg hak, List.lookup_cons, List.lookup_cons]
      by_cases hk : k' = a.1
      · rw [beq_iff_eq.mpr hk]
      · rw [beq_false_of_ne hk]
        exact ih

/-- Reading attribute `k` after appending a fresh `(k, v)` entry. -/
theorem lookup_append_single_self (k : String) (v : Int) :
    ∀ attrs : List (String × Int), (∀ p ∈ attrs, p.1 ≠ k) →
      (attrs ++ [(k, v)]).lookup k = some v := by
  intro attrs
  induction attrs with
  | nil => simp [List.lookup_cons]
  | cons a l ih =>
    intro hall
    rw [List.cons_append, List.lookup_cons,
      beq_false_of_ne fun h => hall a (by simp) h.symm]
    exact ih fun p hp => hall p (by simp [hp])

/-- Reading attribute `k' ≠ k` skips an appended `(k, v)` entry. -/
theorem lookup_append_single_ne (k k' : String) (v : Int) (hne : k' ≠ k) :
    ∀ attrs : List (String × Int),
      (attrs ++ [(k, v)]).lookup k' = attrs.lookup k' := by
  intro attrs
  induction attrs with
  | nil => simp [List.lookup_cons, beq_false_of_ne hne]
  | cons a l ih =>
    rw [List.cons_append, List.lookup_cons, List.lookup_cons]
    by_cases hk : k' = a.1
    · rw [beq_iff_eq.mpr hk]
    · rw [beq_false_of_ne hk]
      exact ih

/-- Running `setattr` and then reading the same attribute yields the written
value. -/
theorem lookup_setAttr_self (attrs : List (String × Int)) (k : String) (v : Int) :
    (setAttr attrs k v).lookup k = some v := by
  unfold setAttr
  split
  · exact lookup_map_overwrite_self k v attrs (by assumption)
  · rename_i hnone
    refine lookup_append_single_self k v attrs fun p hp => ?_
    intro hpk
    exact hnone (List.any_eq_true.mpr ⟨p, hp, by simpa using hpk⟩)

/-- Running `setattr` on one attribute leaves the others unchanged. -/
theorem lookup_setAttr_ne (attrs : List (String × Int)) (k k' : String) (v : Int)
    (hne : k' ≠ k) : (setAttr attrs k v).lookup k' = attrs.lookup k' := by
  unfold setAttr
  split
  · exact lookup_map_overwrite_ne k k' v hne attrs
  · exact lookup_append_single_ne k k' v hne attrs

/-- Unfolding one step of the `setattr` loop. -/
theorem setAttrs_cons (attrs : List (String × Int)) (u : String × Int)
    (rest : List (String × Int)) :
    setAttrs attrs (u :: rest) = setAttrs (setAttr attrs u.1 u.2) rest := rfl

/-- An attribute not named in the updates is unaffected by the whole
`setattr` loop. -/
theorem lookup_setAttrs_notmem (k : String) :
    ∀ (updates : List (String × Int)) (attrs : List (String × Int)),
      k ∉ updates.map Prod.fst →
      (setAttrs attrs updates).lookup k = attrs.lookup k := by
  intro updates
  induction updates with
  | nil => intro attrs _; rfl
  | cons u rest ih =>
    intro attrs hk
    simp only [List.map_cons, List.mem_cons] at hk
    push_neg at hk
    rw [setAttrs_cons, ih (setAttr attrs u.1 u.2) hk.2,
      lookup_setAttr_ne attrs u.1 k u.2 hk.1]

/-- After the `setattr` loop, every updated attribute reads back its best
value (update keys distinct, as they are keys of a Python dict). -/
theorem lookup_setAttrs_mem (k : String) (v : Int) :
    ∀ (updates : List (String × Int)) (attrs : List (String × Int)),
      (updates.map Prod.fst).Nodup → (k, v) ∈ updates →
      (setAttrs attrs updates).lookup k = some v := by
  intro updates
  induction updates with
  | nil => intro attrs _ h; simp at h
  | cons u rest ih =>
    intro attrs hnd hmem
    simp only [List.map_cons, List.nodup_cons] at hnd
    rw [setAttrs_cons]
    rcases List.mem_cons.mp hmem with rfl | hmem2
    · rw [lookup_setAttrs_notmem k rest (setAttr attrs k v) hnd.1,
        lookup_setAttr_self]
    · exact ih (setAttr attrs u.1 u.2) hnd.2 hmem2

/-! ## The flat/long state-machine invariant of the candle loop -/

/-- Number of buy entries in a ledger. -/
def buyCount (ts : List Trade) : Nat :=
  ts.countP fun t => decide (t.type = TradeType.buy)

/-- Number of sell entries in a ledger. -/
def sellCount (ts : List Trade) : Nat :=
  ts.countP fun t => decide (t.type = TradeType.sell)

/-- The loop state is either flat — no position, positive cash, every buy
matched by a sell — or long — positive position bought with the whole
(positive) cash, one unmatched buy. -/
def FlatOrLong (s : RunState) : Prop :=
  (s.position = 0 ∧ 0 < s.cash ∧ buyCount s.trades = sellCount s.trades) ∨
  (0 < s.position ∧ s.cash = 0 ∧ 0 < s.position_size ∧
    buyCount s.trades = sellCount s.trades + 1)

/-- Engine configurations under which the state machine is well behaved:
positive starting capital, commission below 100 %, slippage strictly between
−100 % and 100 %. -/
def SaneCosts (bt : Backtest) : Prop :=
  0 < bt.initial_capital ∧ bt.commission_pct < 1 ∧
    -1 < bt.slippage_pct ∧ bt.slippage_pct < 1

theorem buyCount_append_buy (ts : List Trade) (t : Trade) (h : t.type = TradeType.buy) :
    buyCount (ts ++ [t]) = buyCount ts + 1 := by
  unfold buyCount
  rw [List.countP_append]
  simp [List.countP, List.countP.go, h]

theorem sellCount_append_buy (ts : List Trade) (t : Trade) (h : t.type = TradeType.buy) :
    sellCount (ts ++ [t]) = sellCount ts := by
  unfold sellCount
  rw [List.countP_append]
  simp [List.countP, List.countP.go, h]

theorem buyCount_append_sell (ts : List Trade) (t : Trade) (h : t.type = TradeType.sell) :
    buyCount (ts ++ [t]) = buyCount ts := by
  unfold buyCount
  rw [List.countP_append]
  simp [List.countP, List.countP.go, h]

theorem sellCount_append_sell (ts : List Trade) (t : Trade) (h : t.type = TradeType.sell) :
    sellCount (ts ++ [t]) = sellCount ts + 1 := by
  unfold sellCount
  rw [List.countP_append]
  simp [List.countP, List.countP.go, h]

/-- One loop iteration preserves the flat/long invariant, provided the bar's
close price is positive and the engine costs are sane. -/
theorem stepBar_flatOrLong (bt : Backtest) (candles : List Candle) (s : RunState) (i : Nat)
    (hbt : SaneCosts bt) (hi : i < candles.length)
    (hp : ∀ cd ∈ candles, 0 < cd.c) (hs : FlatOrLong s) :
    FlatOrLong (stepBar bt candles s i) := by
  obtain ⟨-, hcomm, hs1, hs2⟩ := hbt
  have hprice : 0 < (candles.getD i ⟨0, 0⟩).c := by
    rw [List.getD_eq_getElem?_getD, List.getElem?_eq_getElem hi]
    exact hp _ (List.getElem_mem hi)
  simp only [stepBar]
  split
  · rename_i hcond
    obtain ⟨-, hpos0⟩ := hcond
    rcases hs with ⟨-, hcash, hcnt⟩ | ⟨hlong, -, -, -⟩
    · refine Or.inr ⟨?_, rfl, hcash, ?_⟩
      · refine div_pos ?_ (mul_pos hprice (by linarith))
        have := mul_pos hcash (show (0 : ℚ) < 1 - bt.commission_pct by linarith)
        nlinarith
      · rw [buyCount_append_buy _ _ rfl, sellCount_append_buy _ _ rfl, hcnt]
    · exact absurd hpos0 (by simpa using ne_of_gt hlong)
  · split
    · rename_i hcond
      obtain ⟨-, hpos⟩ := hcond
      rcases hs with ⟨hflat, -, -⟩ | ⟨-, hcash0, hps, hcnt⟩
      · exact absurd hpos (by simp [hflat])
      · refine Or.inl ⟨rfl, ?_, ?_⟩
        · have hsp : 0 < (candles.getD i ⟨0, 0⟩).c * (1 - bt.slippage_pct) :=
            mul_pos hprice (by linarith)
          have hsv : 0 < s.position * ((candles.getD i ⟨0, 0⟩).c * (1 - bt.slippage_pct)) :=
            mul_pos hpos hsp
          have := mul_pos hsv (show (0 : ℚ) < 1 - bt.commission_pct by linarith)
          rw [hcash0]
          nlinarith
        · rw [buyCount_append_sell _ _ rfl, sellCount_append_sell _ _ rfl, hcnt]
    · rcases hs with ⟨hflat, hcash, hcnt⟩ | ⟨hlong, hcash0, hps, hcnt⟩
      · exact Or.inl ⟨hflat, hcash, hcnt⟩
      · exact Or.inr ⟨hlong, hcash0, hps, hcnt⟩

/-- The invariant holds after folding the loop body over any list of valid
indices. -/
theorem foldl_stepBar_flatOrLong (bt : Backtest) (candles : List Candle)
    (hbt : SaneCosts bt) (hp : ∀ cd ∈ candles, 0 < cd.c) :
    ∀ (idxs : List Nat) (s : RunState), (∀ i ∈ idxs, i < candles.length) →
      FlatOrLong s → FlatOrLong (idxs.foldl (stepBar bt candles) s) := by
  intro idxs
  induction idxs with
  | nil => intro s _ hs; exact hs
  | cons i rest ih =>
    intro s hvalid hs
    rw [List.foldl_cons]
    exact ih _ (fun j hj => hvalid j (by simp [hj]))
      (stepBar_flatOrLong bt candles s i hbt (hvalid i (by simp)) hp hs)

/-- The initial state is flat whenever the starting capital is positive. -/
theorem initState_flatOrLong (bt : Backtest) (h : 0 < bt.initial_capital) :
    FlatOrLong (initState bt) :=
  Or.inl ⟨rfl, h, rfl⟩

/-- Every intermediate state of the candle loop is flat or long. -/
theorem loopStateAt_flatOrLong (bt : Backtest) (candles : List Candle)
    (hbt : SaneCosts bt) (hp : ∀ cd ∈ candles, 0 < cd.c) (k : Nat) :
    FlatOrLong (loopStateAt bt candles k) := by
  refine foldl_stepBar_flatOrLong bt candles hbt hp _ _ ?_
    (initState_flatOrLong bt hbt.1)
  intro i hi
  exact mem_loopIndices_lt bt candles i (List.mem_of_mem_take hi)

/-- The final state of the candle loop is flat or long. -/
theorem runLoop_flatOrLong (bt : Backtest) (candles : List Candle)
    (hbt : SaneCosts bt) (hp : ∀ cd ∈ candles, 0 < cd.c) :
    FlatOrLong (runLoop bt candles) := by
  refine foldl_stepBar_flatOrLong bt candles hbt hp _ _
    (fun i hi => mem_loopIndices_lt bt candles i hi) (initState_flatOrLong bt hbt.1)

/-- Whatever the loop did, the forced liquidation leaves a zero position as
soon as the loop ended flat or long. -/
theorem closeFinal_position_eq_zero (bt : Backtest) (candles : List Candle) (s : RunState)
    (hs : FlatOrLong s) : (closeFinal bt candles s).position = 0 := by
  unfold closeFinal
  split
  · rfl
  · rename_i hnotpos
    rcases hs with ⟨hflat, -, -⟩ | ⟨hlong, -, -, -⟩
    · exact hflat
    · exact absurd hlong hnotpos

/-! ## Grid-search fold lemmas -/

/-- On a successful construction, one grid-search step appends the summary
and updates the best on strict improvement. -/
theorem gridStep_ok (mk : List (String × Int) → Except String Strategy)
    (extract : RunResult → ℚ) (bt : Backtest) (candles : List Candle)
    (acc : GridAcc) (p : List (String × Int)) (h : (mk p).isOk = true) :
    gridStep mk extract bt candles acc p =
      .ok (if acc.best_value < ((comboValue mk extract bt candles p : ℚ) : WithBot ℚ) then
            { best_params := p,
              best_value := ((comboValue mk extract bt candles p : ℚ) : WithBot ℚ),
              all_results := acc.all_results ++ [⟨p, comboValue mk extract bt candles p⟩] }
          else
            { acc with
              all_results := acc.all_results ++ [⟨p, comboValue mk extract bt candles p⟩] }) := by
  cases hmk : mk p with
  | error e => rw [hmk] at h; simp [Except.isOk, Except.toBool] at h
  | ok strat => simp only [gridStep, comboValue, hmk]

/-- A failing construction anywhere in the combination list makes the whole
grid-search fold raise. -/
theorem gridFold_error_of_mem (mk : List (String × Int) → Except String Strategy)
    (extract : RunResult → ℚ) (bt : Backtest) (candles : List Candle) :
    ∀ (l : List (List (String × Int))) (acc : GridAcc) (p : List (String × Int)),
      p ∈ l → (mk p).isOk = false →
      ∃ e, List.foldlM (gridStep mk extract bt candles) acc l = .error e := by
  intro l
  induction l with
  | nil => intro acc p hp _; simp at hp
  | cons q rest ih =>
    intro acc p hp hbad
    rw [List.foldlM_cons]
    cases hmk : mk q with
    | error e =>
      refine ⟨e, ?_⟩
      have : gridStep mk extract bt candles acc q = .error e := by
        simp only [gridStep, hmk]
      rw [this]
      rfl
    | ok strat =>
      rcases List.mem_cons.mp hp with rfl | hp2
      · rw [hmk] at hbad; simp [Except.isOk, Except.toBool] at hbad
      · have hstep : (mk q).isOk = true := by rw [hmk]; rfl
        rw [gridStep_ok mk extract bt candles acc q hstep]
        exact ih _ p hp2 hbad

/-- Full characterization of the grid-search fold when every construction
succeeds: it returns, the best value is the running maximum, the summaries
are collected in order, and on strict improvement over the incoming best the
final best parameters are the earliest combination attaining the maximum. -/
theorem gridFold_spec (mk : List (String × Int) → Except String Strategy)
    (extract : RunResult → ℚ) (bt : Backtest) (candles : List Candle) :
    ∀ (l : List (List (String × Int))) (acc : GridAcc),
      (∀ p ∈ l, (mk p).isOk = true) →
      ∃ acc2,
        List.foldlM (gridStep mk extract bt candles) acc l = .ok acc2 ∧
        acc2.best_value =
          max acc.best_value ((l.map (comboValue mk extract bt candles)).maximum) ∧
        acc2.all_results =
          acc.all_results ++ l.map (fun p => ⟨p, comboValue mk extract bt candles p⟩) ∧
        (acc.best_value < (l.map (comboValue mk extract bt candles)).maximum →
          ∃ pre post, l = pre ++ acc2.best_params :: post ∧
            ((comboValue mk extract bt candles acc2.best_params : ℚ) : WithBot ℚ) =
              (l.map (comboValue mk extract bt candles)).maximum ∧
            ∀ q ∈ pre, ((comboValue mk extract bt candles q : ℚ) : WithBot ℚ) <
              (l.map (comboValue mk extract bt candles)).maximum) ∧
        (¬ acc.best_value < (l.map (comboValue mk extract bt candles)).maximum →
          acc2.best_params = acc.best_params) := by
  intro l
  induction l with
  | nil =>
    intro acc _
    refine ⟨acc, by rw [List.foldlM_nil]; rfl, ?_, by simp, ?_, fun _ => rfl⟩
    · rw [List.map_nil, List.maximum_nil]
      exact (max_eq_left bot_le).symm
    · intro hcontra
      simp only [List.map_nil, List.maximum_nil] at hcontra
      exact absurd hcontra not_lt_bot
  | cons p rest ih =>
    intro acc hok
    have hokp : (mk p).isOk = true := hok p (by simp)
    have hokrest : ∀ q ∈ rest, (mk q).isOk = true := fun q hq => hok q (by simp [hq])
    rw [List.foldlM_cons, gridStep_ok mk extract bt candles acc p hokp]
    have hMcons : ((p :: rest).map (comboValue mk extract bt candles)).maximum =
        max ((comboValue mk extract bt candles p : ℚ) : WithBot ℚ)
          ((rest.map (comboValue mk extract bt candles)).maximum) := by
      rw [List.map_cons, List.maximum_cons]
    by_cases hup : acc.best_value < ((comboValue mk extract bt candles p : ℚ) : WithBot ℚ)
    · rw [if_pos hup]
      obtain ⟨acc2, hfold, hbv, hall, himp1, himp2⟩ :=
        ih { best_params := p,
             best_value := ((comboValue mk extract bt candles p : ℚ) : WithBot ℚ),
             all_results := acc.all_results ++ [⟨p, comboValue mk extract bt candles p⟩] }
          hokrest
      refine ⟨acc2, by exact hfold, ?_, ?_, ?_, ?_⟩
      · rw [hbv, hMcons]
        rw [max_eq_right (le_of_lt (lt_of_lt_of_le hup (le_max_left _ _)))]
      · rw [hall]; simp
      · intro _
        rw [hMcons]
        by_cases hrest : ((comboValue mk extract bt candles p : ℚ) : WithBot ℚ) <
            (rest.map (comboValue mk extract bt candles)).maximum
        · obtain ⟨pre, post, hsplit, hmax, hpre⟩ := himp1 hrest
          have hMeq : max ((comboValue mk extract bt candles p : ℚ) : WithBot ℚ)
              ((rest.map (comboValue mk extract bt candles)).maximum) =
              (rest.map (comboValue mk extract bt candles)).maximum :=
            max_eq_right (le_of_lt hrest)
          refine ⟨p :: pre, post, by rw [hsplit]; rfl, by rw [hMeq]; exact hmax, ?_⟩
          intro q hq
          rw [hMeq]
          rcases List.mem_cons.mp hq with rfl | hq2
          · exact hrest
          · exact hpre q hq2
        · have hbp : acc2.best_params = p := himp2 hrest
          have hMeq : max ((comboValue mk extract bt candles p : ℚ) : WithBot ℚ)
              ((rest.map (comboValue mk extract bt candles)).maximum) =
              ((comboValue mk extract bt candles p : ℚ) : WithBot ℚ) :=
            max_eq_left (not_lt.mp hrest)
          exact ⟨[], rest, by simp [hbp], by rw [hbp, hMeq], by simp⟩
      · intro hnot
        exfalso
        rw [hMcons] at hnot
        exact hnot (lt_of_lt_of_le hup (le_max_left _ _))
    · rw [if_neg hup]
      obtain ⟨acc2, hfold, hbv, hall, himp1, himp2⟩ :=
        ih { acc with
             all_results := acc.all_results ++ [⟨p, comboValue mk extract bt candles p⟩] }
          hokrest
      have hvle : ((comboValue mk extract bt candles p : ℚ) : WithBot ℚ) ≤ acc.best_value :=
        not_lt.mp hup
      refine ⟨acc2, by exact hfold, ?_, ?_, ?_, ?_⟩
      · rw [hbv, hMcons, ← max_assoc]
        rw [show max acc.best_value ((comboValue mk extract bt candles p : ℚ) : WithBot ℚ) =
          acc.best_value from max_eq_left hvle]
      · rw [hall]; simp
      · intro hlt
        rw [hMcons] at hlt
        have hrest : acc.best_value < (rest.map (comboValue mk extract bt candles)).maximum := by
          by_contra hcon
          exact absurd hlt (not_lt.mpr (max_le hvle (not_lt.mp hcon)))
        obtain ⟨pre, post, hsplit, hmax, hpre⟩ := himp1 hrest
        have hMeq : max ((comboValue mk extract bt candles p : ℚ) : WithBot ℚ)
            ((rest.map (comboValue mk extract bt candles)).maximum) =
            (rest.map (comboValue mk extract bt candles)).maximum :=
          max_eq_right (le_trans hvle (le_of_lt hrest))
        rw [hMcons, hMeq]
        refine ⟨p :: pre, post, by rw [hsplit]; rfl, hmax, ?_⟩
        intro q hq
        rcases List.mem_cons.mp hq with rfl | hq2
        · exact lt_of_le_of_lt hvle hrest
        · exact hpre q hq2
      · intro hnot
        rw [hMcons] at hnot
        have hrestle : (rest.map (comboValue mk extract bt candles)).maximum ≤
            acc.best_value := le_trans (le_max_right _ _) (not_lt.mp hnot)
        exact himp2 (not_lt.mpr hrestle)

/-! ## Claims -/

/-- C9: for every candle series strictly shorter than the strategy's required
history length, `Backtest.run` returns the "not enough candles" error result,
which carries no equity curve, no trades and no partial computation — the
error constructor holds nothing but the message. -/
theorem mmvb_C9 (bt : Backtest) (candles : List Candle)
    (h : candles.length < bt.strategy.requiredCandles) :
    Backtest.run bt candles = .error "Not enough candles for backtest" := by
  unfold Backtest.run
  rw [if_pos h]

/-- Witness for C9: the hold strategy needs 1 candle; an empty series is
rejected. -/
theorem mmvb_C9_witness :
    ([] : List Candle).length < holdBacktest.strategy.requiredCandles ∧
      Backtest.run holdBacktest [] = .error "Not enough candles for backtest" :=
  ⟨by decide, mmvb_C9 holdBacktest [] (by decide)⟩

/-- C6: for every candle series of length `N ≥ R` (the strategy's required
history length) the run succeeds and its equity curve has exactly `N − R`
points, one per evaluated bar. -/
theorem mmvb_C6 (bt : Backtest) (candles : List Candle)
    (h : bt.strategy.requiredCandles ≤ candles.length) :
    ∃ r, Backtest.run bt candles = .ok r ∧
      r.curve.length = candles.length - bt.strategy.requiredCandles := by
  unfold Backtest.run
  rw [if_neg (not_lt.mpr h)]
  refine ⟨_, rfl, ?_⟩
  show (closeFinal bt candles (runLoop bt candles)).curve.length = _
  rw [closeFinal_curve]
  unfold runLoop
  rw [foldl_stepBar_curve_length]
  unfold loopIndices initState
  simp [List.length_range']

/-- Witness for C6: two candles, hold strategy requiring one: a single-point
curve. -/
theorem mmvb_C6_witness :
    holdBacktest.strategy.requiredCandles ≤ abCandles.length ∧
      ∃ r, Backtest.run holdBacktest abCandles = .ok r ∧
        r.curve.length = abCandles.length - holdBacktest.strategy.requiredCandles :=
  ⟨by decide, mmvb_C6 holdBacktest abCandles (by decide)⟩

/-- C3 counterexample: in the always-buy run a Buy executes at the only
evaluated bar, yet the EquityPoint appended for that bar records `cash =
10000` (the pre-trade cash), not the post-trade `cash = 0` the claim
demands. -/
theorem mmvb_C3_counterexample :
    (runLoop abBacktest abCandles).trades.map Trade.type = [TradeType.buy] ∧
    (runLoop abBacktest abCandles).curve.map EquityPoint.cash = [10000] ∧
    (runLoop abBacktest abCandles).curve.map EquityPoint.cash ≠ [0] := by
  refine ⟨by decide, by decide, by decide⟩

/-- C3 (amended): the EquityPoint appended for bar `t` records the cash and
position value holding **before** the bar's trade executes — the loop
appends the snapshot row first and only then executes a Buy or Sell. -/
theorem mmvb_C3 (bt : Backtest) (candles : List Candle) (s : RunState) (i : Nat) :
    (stepBar bt candles s i).curve =
      s.curve ++ [⟨(candles.getD i ⟨0, 0⟩).time,
                   s.cash + s.position * (candles.getD i ⟨0, 0⟩).c,
                   s.cash,
                   s.position * (candles.getD i ⟨0, 0⟩).c⟩] :=
  stepBar_curve bt candles s i

/-- C2 counterexample: at step `t = 1` the history handed to `analyze` is
`candles[:1]`, not the inclusive prefix `candles[0..1]`; behaviourally, a
strategy looking for the close 999 of bar 1 does not see it at bar 1 and
never trades. -/
theorem mmvb_C2_counterexample :
    historyAt c2Candles 1 ≠ c2Candles.take (1 + 1) ∧
    historyAt c2Candles 1 = [⟨0, 1⟩] ∧
    (runLoop c2Backtest c2Candles).trades = [] := by
  refine ⟨by decide, by decide, by decide⟩

/-- C2 (amended): the history passed to `analyze` at step `t` is exactly the
bars of index `< t` — the prefix of length `t` that stops just short of bar
`t`; appending bar `t` (whose close is the execution price) yields the
inclusive prefix `candles[0..t]`.  There is still no lookahead. -/
theorem mmvb_C2 (candles : List Candle) (t : Nat) (h : t < candles.length) :
    (historyAt candles t).length = t ∧
    historyAt candles t ++ [candles.get ⟨t, h⟩] = candles.take (t + 1) := by
  constructor
  · unfold historyAt
    rw [List.length_take]
    omega
  · unfold historyAt
    rw [List.take_succ]
    congr
    rw [List.getElem?_eq_getElem h]
    rfl

/-- Witness for C2: the two-candle series at step 1. -/
theorem mmvb_C2_witness :
    1 < c2Candles.length ∧
    (historyAt c2Candles 1).length = 1 ∧
    historyAt c2Candles 1 ++ [c2Candles.get ⟨1, by decide⟩] = c2Candles.take (1 + 1) :=
  ⟨by decide, (mmvb_C2 c2Candles 1 (by decide)).1, (mmvb_C2 c2Candles 1 (by decide)).2⟩

/-- C8: with zero commission and zero slippage, buying with cash `c > 0` at
price `p > 0` and then selling at the same price returns the cash balance to
exactly `c` — run over the round-trip strategy on two candles closing at
`p`. -/
theorem mmvb_C8 (c p : ℚ) (hc : 0 < c) (hp : 0 < p) :
    (closeFinal (rtBacktest c) (rtCandles p) (runLoop (rtBacktest c) (rtCandles p))).cash
      = c := by
  have hp0 : p ≠ 0 := ne_of_gt hp
  simp only [rtBacktest, rtCandles, roundTripStrategy, runLoop, loopIndices, initState,
    List.length_cons, List.length_nil, List.range', stepBar, historyAt, closeFinal,
    List.foldl]
  norm_num
  rw [if_pos (div_pos hc hp)]
  norm_num
  exact div_mul_cancel₀ c hp0

/-- Witness for C8: a 100-cash round trip at price 4. -/
theorem mmvb_C8_witness :
    (0 : ℚ) < 100 ∧ (0 : ℚ) < 4 ∧
      (closeFinal (rtBacktest 100) (rtCandles 4) (runLoop (rtBacktest 100) (rtCandles 4))).cash
        = 100 :=
  ⟨by norm_num, by norm_num, mmvb_C8 100 4 (by norm_num) (by norm_num)⟩

/-- C7 counterexample: with positive capital, positive closes and commission
below 1 — but slippage 2, which the claim does not exclude — a sell at
negative effective price drives cash negative and a later buy creates a
negative position, so the run does not end flat. -/
theorem mmvb_C7_counterexample :
    0 < cx7Backtest.initial_capital ∧ cx7Backtest.commission_pct < 1 ∧
    (∀ cd ∈ cx7Candles, 0 < cd.c) ∧
    (closeFinal cx7Backtest cx7Candles (runLoop cx7Backtest cx7Candles)).position ≠ 0 := by
  refine ⟨by norm_num [cx7Backtest], by norm_num [cx7Backtest], by decide, ?_⟩
  simp only [cx7Backtest, cx7Candles, buySellBuyStrategy, runLoop, loopIndices, initState,
    List.length_cons, List.length_nil, List.range', stepBar, historyAt, closeFinal,
    List.foldl]
  norm_num

/-- C7 (amended): with positive initial capital, positive close prices,
commission below 100 % **and slippage strictly between −100 % and 100 %**
(the hypothesis the counterexample forces), the position quantity is zero at
every loop step except strictly between a Buy and its matching Sell — where
it is strictly positive — and it is zero again once the end-of-series
liquidation has run. -/
theorem mmvb_C7 (bt : Backtest) (candles : List Candle)
    (hcap : 0 < bt.initial_capital) (hcomm : bt.commission_pct < 1)
    (hslip1 : -1 < bt.slippage_pct) (hslip2 : bt.slippage_pct < 1)
    (hp : ∀ cd ∈ candles, 0 < cd.c) :
    (∀ k, (0 < (loopStateAt bt candles k).position ↔
            buyCount (loopStateAt bt candles k).trades =
              sellCount (loopStateAt bt candles k).trades + 1) ∧
          ((loopStateAt bt candles k).position = 0 ↔
            buyCount (loopStateAt bt candles k).trades =
              sellCount (loopStateAt bt candles k).trades)) ∧
    (closeFinal bt candles (runLoop bt candles)).position = 0 := by
  have hbt : SaneCosts bt := ⟨hcap, hcomm, hslip1, hslip2⟩
  constructor
  · intro k
    rcases loopStateAt_flatOrLong bt candles hbt hp k with
      ⟨h0, -, hcnt⟩ | ⟨hpos, -, -, hcnt⟩
    · refine ⟨⟨fun hlt => ?_, fun hceq => ?_⟩, fun _ => hcnt, fun _ => h0⟩
      · rw [h0] at hlt; exact absurd hlt (lt_irrefl 0)
      · exfalso; omega
    · refine ⟨⟨fun _ => hcnt, fun _ => hpos⟩, fun heq => ?_, fun hceq => ?_⟩
      · rw [heq] at hpos; exact absurd hpos (lt_irrefl 0)
      · exfalso; omega
  · exact closeFinal_position_eq_zero bt candles _ (runLoop_flatOrLong bt candles hbt hp)

/-- Witness for C7: hold strategy, sane costs, two positive candles. -/
theorem mmvb_C7_witness :
    (0 : ℚ) < holdBacktest.initial_capital ∧
    (0 < (loopStateAt holdBacktest abCandles 1).position ↔
      buyCount (loopStateAt holdBacktest abCandles 1).trades =
        sellCount (loopStateAt holdBacktest abCandles 1).trades + 1) ∧
    (closeFinal holdBacktest abCandles (runLoop holdBacktest abCandles)).position = 0 :=
  ⟨by norm_num [holdBacktest],
   ((mmvb_C7 holdBacktest abCandles (by norm_num [holdBacktest])
      (by norm_num [holdBacktest]) (by norm_num [holdBacktest])
      (by norm_num [holdBacktest]) (by decide)).1 1).1,
   (mmvb_C7 holdBacktest abCandles (by norm_num [holdBacktest])
      (by norm_num [holdBacktest]) (by norm_num [holdBacktest])
      (by norm_num [holdBacktest]) (by decide)).2⟩

/-- C4 counterexample: the always-buy run ends with the forced liquidation at
the entry price, so its ledger has no winning and no losing closing trade;
the profit factor is still `+infinity`, refuting the claimed
"+infinity implies at least one winning trade" direction. -/
theorem mmvb_C4_counterexample :
    profit_factor c4Trades = some ProfitFactor.infinity ∧
    (c4Trades.countP fun t => decide (0 < t.profit_loss.getD 0)) = 0 ∧
    c4Trades.length = 2 := by
  have htr : c4Trades = (match Backtest.run abBacktest abCandles with
      | .ok r => r.trades
      | .error _ => []) := rfl
  refine ⟨?_, ?_, ?_⟩ <;>
    · rw [htr]
      simp only [Backtest.run, abBacktest, abCandles, alwaysBuyStrategy, runLoop,
        loopIndices, initState, List.length_cons, List.length_nil, List.range', stepBar,
        historyAt, closeFinal, List.foldl, profit_factor, totalLoss, totalProfit]
      norm_num

/-- C4 (amended): for every non-empty trade ledger, the profit factor is
`+infinity` **iff the ledger has no losing trade** (`profit_loss < 0`); no
winning trade is required, because the guard only tests the loss sum. -/
theorem mmvb_C4 (trades : List Trade) (h : trades ≠ []) :
    (profit_factor trades = some ProfitFactor.infinity ↔
      ∀ t ∈ trades, ¬ t.profit_loss.getD 0 < 0) := by
  unfold profit_factor
  rw [if_pos (List.length_pos.mpr h)]
  constructor
  · intro hinf t ht hneg
    by_cases htl : 0 < totalLoss trades
    · rw [if_pos htl] at hinf
      exact absurd (Option.some.inj hinf) (by simp)
    · apply htl
      unfold totalLoss
      refine abs_pos.mpr (ne_of_lt (sum_neg_of_all_neg _ ?_ ?_))
      · intro x hx
        obtain ⟨u, hu, rfl⟩ := List.mem_map.mp hx
        simpa using List.of_mem_filter hu
      · intro hnil
        rw [List.map_eq_nil_iff] at hnil
        have hmem : t ∈ trades.filter fun u => decide (u.profit_loss.getD 0 < 0) :=
          List.mem_filter.mpr ⟨ht, by simpa using hneg⟩
        rw [hnil] at hmem
        simp at hmem
  · intro hall
    have hfil : trades.filter (fun t => decide (t.profit_loss.getD 0 < 0)) = [] :=
      List.filter_eq_nil_iff.mpr fun t ht => by simpa using hall t ht
    have htl : totalLoss trades = 0 := by
      unfold totalLoss
      rw [hfil]
      simp
    rw [if_neg (by rw [htl]; exact lt_irrefl 0)]

/-- Witness for C4: a single closing trade with a 5-profit. -/
theorem mmvb_C4_witness :
    [c4WitnessTrade] ≠ ([] : List Trade) ∧
    (profit_factor [c4WitnessTrade] = some ProfitFactor.infinity ↔
      ∀ t ∈ [c4WitnessTrade], ¬ t.profit_loss.getD 0 < 0) :=
  ⟨by decide, mmvb_C4 [c4WitnessTrade] (by decide)⟩

/-- C1 counterexample: a grid whose first combination has
`fast_period = 40 ≥ slow_period = 30` makes the whole optimization return
the construction error — the second, valid combination `(5, 30)` is never
evaluated and no result covering it is produced. -/
theorem mmvb_C1_counterexample :
    optimize_strategy (MovingAverageStrategy.init fun _ => 0) extractFinalEquity
        holdBacktest [] [("fast_period", [40, 5]), ("slow_period", [30])] =
      .error "Fast period must be smaller than slow period" := by
  rfl

/-- C1 (amended): if constructing the strategy for any enumerated combination
fails, the grid search does **not** skip it: the exception propagates and the
entire optimization aborts with an error, covering no combination at all. -/
theorem mmvb_C1 (mk : List (String × Int) → Except String Strategy)
    (extract : RunResult → ℚ) (bt : Backtest) (candles : List Candle)
    (param_ranges : List (String × List Int)) (hpr : param_ranges ≠ [])
    (hbad : ∃ p ∈ combosOf param_ranges, (mk p).isOk = false) :
    ∃ e, optimize_strategy mk extract bt candles param_ranges = .error e := by
  obtain ⟨p, hp, hbadp⟩ := hbad
  obtain ⟨e, he⟩ := gridFold_error_of_mem mk extract bt candles
    (combosOf param_ranges) ⟨[], ⊥, []⟩ p hp hbadp
  refine ⟨e, ?_⟩
  unfold optimize_strategy
  rw [if_neg (by simpa using hpr)]
  have hgs : gridSearch mk extract bt candles (combosOf param_ranges) = .error e := he
  rw [hgs]

/-- Witness for C1: one bad combination `(40, 30)` aborts the search. -/
theorem mmvb_C1_witness :
    ([("fast_period", [40]), ("slow_period", [30])] : List (String × List Int)) ≠ [] ∧
    (∃ p ∈ combosOf [("fast_period", [40]), ("slow_period", [30])],
      ((MovingAverageStrategy.init fun _ => 0) p).isOk = false) ∧
    ∃ e, optimize_strategy (MovingAverageStrategy.init fun _ => 0) extractFinalEquity
        holdBacktest abCandles [("fast_period", [40]), ("slow_period", [30])] =
      .error e :=
  ⟨by decide, by decide,
   mmvb_C1 (MovingAverageStrategy.init fun _ => 0) extractFinalEquity holdBacktest
     abCandles [("fast_period", [40]), ("slow_period", [30])] (by decide) (by decide)⟩

/-- C5: over a non-empty grid whose every combination constructs, the
optimizer returns; its `best_value` is the maximum extracted metric over all
enumerated combinations; `best_params` is the earliest-enumerated combination
attaining that maximum (strict-greater tracking resolves ties towards the
first); and the returned `results` list has length
`min 10 (number of combinations)`. -/
theorem mmvb_C5 (mk : List (String × Int) → Except String Strategy)
    (extract : RunResult → ℚ) (bt : Backtest) (candles : List Candle)
    (param_ranges : List (String × List Int)) (hpr : param_ranges ≠ [])
    (hcombos : combosOf param_ranges ≠ [])
    (hok : ∀ p ∈ combosOf param_ranges, (mk p).isOk = true) :
    ∃ bt2 res, optimize_strategy mk extract bt candles param_ranges = .ok (bt2, res) ∧
      res.best_value =
        ((combosOf param_ranges).map (comboValue mk extract bt candles)).maximum ∧
      (∃ pre post, combosOf param_ranges = pre ++ res.best_params :: post ∧
        ((comboValue mk extract bt candles res.best_params : ℚ) : WithBot ℚ) =
          ((combosOf param_ranges).map (comboValue mk extract bt candles)).maximum ∧
        ∀ q ∈ pre, ((comboValue mk extract bt candles q : ℚ) : WithBot ℚ) <
          ((combosOf param_ranges).map (comboValue mk extract bt candles)).maximum) ∧
      res.results.length = min 10 (combosOf param_ranges).length := by
  obtain ⟨acc2, hfold, hbv, hall, himp1, -⟩ :=
    gridFold_spec mk extract bt candles (combosOf param_ranges) ⟨[], ⊥, []⟩ hok
  have hne : ((combosOf param_ranges).map (comboValue mk extract bt candles)).maximum ≠ ⊥ :=
    List.maximum_ne_bot_of_ne_nil (by simpa using hcombos)
  have hlt : (⊥ : WithBot ℚ) <
      ((combosOf param_ranges).map (comboValue mk extract bt candles)).maximum :=
    bot_lt_iff_ne_bot.mpr hne
  unfold optimize_strategy
  rw [if_neg (by simpa using hpr)]
  have hgs : gridSearch mk extract bt candles (combosOf param_ranges) = .ok acc2 := hfold
  rw [hgs]
  refine ⟨_, _, rfl, ?_, ?_, ?_⟩
  · show acc2.best_value = _
    rw [hbv]
    exact max_eq_right bot_le
  · obtain ⟨pre, post, hsplit, hmax, hpre⟩ := himp1 hlt
    exact ⟨pre, post, hsplit, hmax, hpre⟩
  · show ((sortDesc acc2.all_results).take 10).length = _
    rw [List.length_take, sortDesc_length, hall]
    simp

/-- Witness for C5: two hold combinations with identical metric; the first is
kept, two summaries are returned. -/
theorem mmvb_C5_witness :
    ([("y", [5, 7])] : List (String × List Int)) ≠ [] ∧
    combosOf [("y", [5, 7])] ≠ [] ∧
    (∃ bt2 res, optimize_strategy mkHold extractFinalEquity holdBacktest abCandles
        [("y", [5, 7])] = .ok (bt2, res) ∧
      res.best_value =
        ((combosOf [("y", [5, 7])]).map
          (comboValue mkHold extractFinalEquity holdBacktest abCandles)).maximum ∧
      (∃ pre post, combosOf [("y", [5, 7])] = pre ++ res.best_params :: post ∧
        ((comboValue mkHold extractFinalEquity holdBacktest abCandles
            res.best_params : ℚ) : WithBot ℚ) =
          ((combosOf [("y", [5, 7])]).map
            (comboValue mkHold extractFinalEquity holdBacktest abCandles)).maximum ∧
        ∀ q ∈ pre, ((comboValue mkHold extractFinalEquity holdBacktest abCandles
            q : ℚ) : WithBot ℚ) <
          ((combosOf [("y", [5, 7])]).map
            (comboValue mkHold extractFinalEquity holdBacktest abCandles)).maximum) ∧
      res.results.length = min 10 (combosOf [("y", [5, 7])]).length) :=
  ⟨by decide, by decide,
   mmvb_C5 mkHold extractFinalEquity holdBacktest abCandles [("y", [5, 7])]
     (by decide) (by decide) (by decide)⟩

/-- C10: after a successful optimization, the engine handed back has every
parameter named in `best_params` overwritten on its template strategy with
the best value (Python's `setattr` loop), while the engine's capital,
commission and slippage configuration is unchanged. -/
theorem mmvb_C10 (mk : List (String × Int) → Except String Strategy)
    (extract : RunResult → ℚ) (bt : Backtest) (candles : List Candle)
    (param_ranges : List (String × List Int)) (bt2 : Backtest) (res : OptResult)
    (h : optimize_strategy mk extract bt candles param_ranges = .ok (bt2, res))
    (hnd : (res.best_params.map Prod.fst).Nodup) :
    bt2.initial_capital = bt.initial_capital ∧
    bt2.commission_pct = bt.commission_pct ∧
    bt2.slippage_pct = bt.slippage_pct ∧
    bt2.strategy.attrs = setAttrs bt.strategy.attrs res.best_params ∧
    ∀ k v, (k, v) ∈ res.best_params → bt2.strategy.attrs.lookup k = some v := by
  unfold optimize_strategy at h
  by_cases hpr : param_ranges.isEmpty
  · rw [if_pos hpr] at h
    injection h with h2
    injection h2 with hb hr
    subst hb
    subst hr
    refine ⟨rfl, rfl, rfl, rfl, ?_⟩
    intro k v hkv
    simp at hkv
  · rw [if_neg hpr] at h
    cases hgs : gridSearch mk extract bt candles (combosOf param_ranges) with
    | error e =>
      rw [hgs] at h
      exact absurd h (by simp)
    | ok acc =>
      rw [hgs] at h
      injection h with h2
      injection h2 with hb hr
      subst hb
      subst hr
      refine ⟨rfl, rfl, rfl, rfl, ?_⟩
      intro k v hkv
      exact lookup_setAttrs_mem k v acc.best_params bt.strategy.attrs hnd hkv

/-- Witness for C10: the concrete two-combination hold optimization; the
template's `x` attribute is overwritten with the winning value 1, the cost
configuration is untouched. -/
theorem mmvb_C10_witness :
    c10ExpectedBacktest.initial_capital = c10Backtest.initial_capital ∧
    c10ExpectedBacktest.commission_pct = c10Backtest.commission_pct ∧
    c10ExpectedBacktest.slippage_pct = c10Backtest.slippage_pct ∧
    c10ExpectedBacktest.strategy.attrs =
      setAttrs c10Backtest.strategy.attrs c10ExpectedResult.best_params ∧
    ∀ k v, (k, v) ∈ c10ExpectedResult.best_params →
      c10ExpectedBacktest.strategy.attrs.lookup k = some v :=
  mmvb_C10 mkHold extractZero c10Backtest abCandles [("x", [1, 2])]
    c10ExpectedBacktest c10ExpectedResult (by rfl) (by decide)

end MMVB
